import Mathlib

set_option maxRecDepth 10000
set_option maxHeartbeats 1000000

/-
Verification development for the gold-price server (src/server.ts).

The subject of the claims is the MemoryCache class (a TTL cache built on a
JavaScript Map) and the three fetch-orchestration helpers
(fetchCurrentGoldPrice, fetchHistoricalData, fetchDateSpecificData) plus the
cached flag computed by the /api/gold/current route handler.

Modelling conventions:
- A JavaScript Map is insertion-ordered; it is embedded as an association
  list (List (String x CacheEntry)) with the exact Map semantics: updating an
  existing key keeps its position, inserting a new key appends at the end,
  and the first element is the first key yielded by iteration.
- Timestamps and durations are Int milliseconds (JavaScript Date.now values
  are exact integers in this range); "now" is passed explicitly wherever the
  source calls Date.now().
- Methods that mutate the instance are embedded in state-passing style,
  returning the new store alongside the JavaScript return value.
- Upstream HTTP calls are embedded as explicit Except-valued inputs (a
  settled promise: fulfilled with a body, or rejected), and each fetch
  helper additionally returns the list of upstream requests it issued, so
  that claims about which sources are queried can be stated.
- Cached payloads are JavaScript objects or arrays, which are always truthy;
  the source tests "if (cachedData)" therefore corresponds to Option.isSome
  and payloads can stay an opaque type parameter.
-/

structure CacheEntry (α : Type) where
  data : α
  timestamp : Int
  ttl : Int
  key : String
deriving DecidableEq, Repr

abbrev Cache (α : Type) := List (String × CacheEntry α)

namespace CACHE_CONFIG

def CURRENT_PRICE_TTL : Int := 5 * 60 * 1000

def HISTORICAL_DATA_TTL : Int := 30 * 60 * 1000

def DATE_SPECIFIC_TTL : Int := 24 * 60 * 60 * 1000

def MAX_CACHE_SIZE : Nat := 1000

def CLEANUP_INTERVAL : Int := 60 * 60 * 1000

end CACHE_CONFIG

/-- JavaScript Map.get on an insertion-ordered association list. -/
def mapGet : List (String × β) → String → Option β
  | [], _ => none
  | p :: t, k => if p.1 = k then some p.2 else mapGet t k

/-- JavaScript Map.set: an existing key is updated in place, keeping its
insertion slot; a new key is appended at the end. -/
def mapSet : List (String × β) → String → β → List (String × β)
  | [], k, v => [(k, v)]
  | p :: t, k, v => if p.1 = k then (k, v) :: t else p :: mapSet t k v

/-- JavaScript Map.delete: removes the entry stored under the key (a Map
holds at most one entry per key). -/
def mapDelete : List (String × β) → String → List (String × β)
  | [], _ => []
  | p :: t, k => if p.1 = k then t else p :: mapDelete t k

/-- The value of this.cache.keys().next().value: the first key in insertion
order, or undefined (none) on an empty map. -/
def oldestKey (m : List (String × β)) : Option String :=
  m.head?.map Prod.fst

/-- MemoryCache.set. Mirrors the source exactly: when size >= MAX_CACHE_SIZE
the first key is fetched and deleted, but only if it is truthy - in
JavaScript the empty string is falsy, so an empty-string oldest key is not
deleted. Then the entry is written with the current timestamp. -/
def MemoryCache.set (c : Cache α) (key : String) (data : α) (ttl now : Int) : Cache α :=
  let c1 :=
    if CACHE_CONFIG.MAX_CACHE_SIZE ≤ c.length then
      match oldestKey c with
      | some k => if k = "" then c else mapDelete c k
      | none => c
    else c
  mapSet c1 key ⟨data, now, ttl, key⟩

/-- MemoryCache.get: lazy expiry check; an expired entry is deleted and null
is returned, otherwise the stored data is returned. -/
def MemoryCache.get (c : Cache α) (key : String) (now : Int) : Option α × Cache α :=
  match mapGet c key with
  | none => (none, c)
  | some e =>
    if now - e.timestamp > e.ttl then (none, mapDelete c key)
    else (some e.data, c)

/-- MemoryCache.has: same expiry semantics as get, returning a boolean. -/
def MemoryCache.has (c : Cache α) (key : String) (now : Int) : Bool × Cache α :=
  match mapGet c key with
  | none => (false, c)
  | some e =>
    if now - e.timestamp > e.ttl then (false, mapDelete c key)
    else (true, c)

/-- MemoryCache.delete. -/
def MemoryCache.delete (c : Cache α) (key : String) : Cache α :=
  mapDelete c key

/-- MemoryCache.clear. -/
def MemoryCache.clear (_c : Cache α) : Cache α :=
  []

/-- MemoryCache.cleanup: first collects the keys of all entries expired at
sweep start, then deletes each collected key. -/
def MemoryCache.cleanup (c : Cache α) (now : Int) : Cache α :=
  let keysToDelete :=
    (c.filter (fun p => decide (now - p.2.timestamp > p.2.ttl))).map Prod.fst
  keysToDelete.foldl mapDelete c

structure StatsEntry where
  key : String
  age : Int
  ttl : Int
  expired : Bool
deriving DecidableEq, Repr

structure CacheStats where
  size : Nat
  maxSize : Nat
  entries : List StatsEntry
deriving DecidableEq, Repr

/-- MemoryCache.getStats: a read-only snapshot. The source calls Date.now()
for the age and for the expired flag of each entry; both calls are embedded
as the single parameter now. -/
def MemoryCache.getStats (c : Cache α) (now : Int) : CacheStats × Cache α :=
  (⟨c.length, CACHE_CONFIG.MAX_CACHE_SIZE,
    c.map (fun p =>
      ⟨p.1, now - p.2.timestamp, p.2.ttl,
        decide (now - p.2.timestamp > p.2.ttl)⟩)⟩, c)

/-- An upstream HTTP request issued by the orchestrator. -/
inductive Request where
  | quote (symbol : String)
  | historicalPriceFull (symbol fromDate toDate : String)
deriving DecidableEq, Repr

/-- A fetch helper either propagates an upstream rejection or throws its own
no-data Error with the given message. -/
inductive FetchError (ε : Type) where
  | upstream (e : ε)
  | noData (msg : String)
deriving DecidableEq, Repr

/-- The body of a fulfilled historical-data response: a bare array, an
object wrapping an array under the historical field, or anything else. -/
inductive UpstreamBody (α : Type) where
  | arr (data : List α)
  | wrapped (historical : List α)
  | other
deriving DecidableEq, Repr

/-- Shape normalization in fetchHistoricalData: a bare array is taken as is,
a wrapping object contributes its historical field, anything else leaves
historicalData at its initial empty-array value. -/
def normalizeHistorical : UpstreamBody α → List α
  | .arr xs => xs
  | .wrapped xs => xs
  | .other => []

/-- Shape handling in fetchDateSpecificData: response.data?.historical ||
response.data, then the first element if the result is an array, else null.
An empty wrapped array is truthy in JavaScript, so it is kept and yields no
first element. -/
def dateFirstRecord : UpstreamBody α → Option α
  | .arr xs => xs.head?
  | .wrapped xs => xs.head?
  | .other => none

/-- fetchCurrentGoldPrice. On a cache hit the cached quote is returned with
no upstream traffic; on a miss both quote requests are issued via
Promise.allSettled (array order [GLD, GCUSD]), the GCUSD (spot gold) result
is preferred if fulfilled with a first element, else the GLD result, else a
no-data Error is thrown; a selected quote is cached with the current-price
TTL. The gld and gold arguments are the settled outcomes of the two
requests (fulfilled carries response.data). -/
def fetchCurrentGoldPrice (c : Cache α) (now : Int)
    (gld gold : Except ε (List α)) :
    Except (FetchError ε) α × Cache α × List Request :=
  match MemoryCache.get c "current_gold_price" now with
  | (some d, c2) => (.ok d, c2, [])
  | (none, c2) =>
    let goldData : Option α :=
      match gold with
      | .ok (q :: _) => some q
      | _ =>
        match gld with
        | .ok (q :: _) => some q
        | _ => none
    match goldData with
    | some q =>
      (.ok q,
        MemoryCache.set c2 "current_gold_price" q CACHE_CONFIG.CURRENT_PRICE_TTL now,
        [.quote "GLD", .quote "GCUSD"])
    | none =>
      (.error (.noData "No gold data available from API"), c2,
        [.quote "GLD", .quote "GCUSD"])

/-- fetchHistoricalData. The start and end_ arguments stand for the pair
computed once by getDateRange(timeframe); the source destructures that pair
once and threads the same two strings into every upstream request, which is
what the claims depend on (the calendar arithmetic inside getDateRange is
not itself under test). On a miss the GCUSD range request runs inside try;
only a rejection reaches catch and triggers the GLD request for the same
range; a fulfilled body of either source is shape-normalized, and an empty
normalized result throws the no-data Error. -/
def fetchHistoricalData (c : Cache (List β)) (now : Int)
    (timeframe start end_ : String)
    (primary secondary : Except ε (UpstreamBody β)) :
    Except (FetchError ε) (List β) × Cache (List β) × List Request :=
  match MemoryCache.get c ("historical_" ++ timeframe) now with
  | (some d, c2) => (.ok d, c2, [])
  | (none, c2) =>
    match primary with
    | .ok body =>
      let historicalData := normalizeHistorical body
      if historicalData.isEmpty then
        (.error (.noData "No historical data available from API"), c2,
          [.historicalPriceFull "GCUSD" start end_])
      else
        (.ok historicalData,
          MemoryCache.set c2 ("historical_" ++ timeframe) historicalData
            CACHE_CONFIG.HISTORICAL_DATA_TTL now,
          [.historicalPriceFull "GCUSD" start end_])
    | .error _ =>
      match secondary with
      | .ok body =>
        let historicalData := normalizeHistorical body
        if historicalData.isEmpty then
          (.error (.noData "No historical data available from API"), c2,
            [.historicalPriceFull "GCUSD" start end_,
             .historicalPriceFull "GLD" start end_])
        else
          (.ok historicalData,
            MemoryCache.set c2 ("historical_" ++ timeframe) historicalData
              CACHE_CONFIG.HISTORICAL_DATA_TTL now,
            [.historicalPriceFull "GCUSD" start end_,
             .historicalPriceFull "GLD" start end_])
      | .error e =>
        (.error (.upstream e), c2,
          [.historicalPriceFull "GCUSD" start end_,
           .historicalPriceFull "GLD" start end_])

/-- fetchDateSpecificData. A single GCUSD request with from = to = date; a
rejection propagates uncaught, a fulfilled body yields its first record or
the date-specific no-data Error; a found record is cached with the long
date-specific TTL. -/
def fetchDateSpecificData (c : Cache α) (now : Int) (date : String)
    (resp : Except ε (UpstreamBody α)) :
    Except (FetchError ε) α × Cache α × List Request :=
  match MemoryCache.get c ("date_" ++ date) now with
  | (some d, c2) => (.ok d, c2, [])
  | (none, c2) =>
    match resp with
    | .error e =>
      (.error (.upstream e), c2, [.historicalPriceFull "GCUSD" date date])
    | .ok body =>
      match dateFirstRecord body with
      | none =>
        (.error (.noData ("No data found for date " ++ date)), c2,
          [.historicalPriceFull "GCUSD" date date])
      | some d =>
        (.ok d,
          MemoryCache.set c2 ("date_" ++ date) d CACHE_CONFIG.DATE_SPECIFIC_TTL now,
          [.historicalPriceFull "GCUSD" date date])

/-- The GET /api/gold/current handler, reduced to the two cache-effectful
steps the cached flag depends on: it awaits fetchCurrentGoldPrice and then
computes cached: cache.has("current_gold_price") on the resulting store
(unit validation and price conversion do not touch the cache). On a thrown
error the handler answers 500 without a cached flag. -/
def handleCurrent (c : Cache α) (now : Int) (gld gold : Except ε (List α)) :
    Except (FetchError ε) (α × Bool) × Cache α :=
  match fetchCurrentGoldPrice c now gld gold with
  | (Except.ok d, c2, _) =>
    match MemoryCache.has c2 "current_gold_price" now with
    | (b, c3) => (Except.ok (d, b), c3)
  | (Except.error e, c2, _) => (Except.error e, c2)

/-- One caller-visible MemoryCache operation, for stating properties of
operation sequences. -/
inductive CacheOp (α : Type) where
  | set (key : String) (data : α) (ttl now : Int)
  | get (key : String) (now : Int)
  | has (key : String) (now : Int)
  | delete (key : String)
  | clear
deriving DecidableEq, Repr

/-- The store transformation of one operation (return values discarded). -/
def applyOp (c : Cache α) : CacheOp α → Cache α
  | .set k v t n => MemoryCache.set c k v t n
  | .get k n => (MemoryCache.get c k n).2
  | .has k n => (MemoryCache.has c k n).2
  | .delete k => MemoryCache.delete c k
  | .clear => MemoryCache.clear c

/-- Running a sequence of operations from the empty store. -/
def runOps (ops : List (CacheOp α)) : Cache α :=
  ops.foldl applyOp []

/-- True unless the operation is a set with the empty-string key. -/
def opKeyOk : CacheOp α → Bool
  | .set k _ _ _ => k != ""
  | _ => true

/-- Key family for the unbounded-growth counterexample: i repetitions of the
letter a, so the key for i = 0 is the empty string. -/
def ceKey (i : Nat) : String := String.mk (List.replicate i 'a')

def cePair (i : Nat) : String × CacheEntry Nat := (ceKey i, ⟨i, 0, 1000000, ceKey i⟩)

/-- A sequence of 1001 set calls with pairwise distinct keys, the first of
which is the empty string. -/
def overflowOps : List (CacheOp Nat) :=
  (List.range 1001).map (fun i => CacheOp.set (ceKey i) i 1000000 0)

def buildCache (n : Nat) : Cache Nat :=
  (List.range n).foldl (fun c i => MemoryCache.set c (ceKey i) i 1000000 0) []

def wEntry : CacheEntry Nat := ⟨7, 0, 5, "k"⟩

def wStore : Cache Nat := [("k", wEntry)]

def wExpired : CacheEntry Nat := ⟨1, 0, 5, "old"⟩

def wLive : CacheEntry Nat := ⟨2, 0, 100, "new"⟩

def wSweepStore : Cache Nat := [("old", wExpired), ("new", wLive)]

/-- The first record of a fulfilled quote response, if any: the JavaScript
truthiness test status === fulfilled && value.data[0] (array elements are
objects, truthy exactly when present). -/
def quoteFirst : Except ε (List α) → Option α
  | .ok l => l.head?
  | .error _ => none

/-- A store at capacity for the eviction counterexample: 1000 entries with
keys "k0" .. "k999" in insertion order. -/
def bigPair (i : Nat) : String × CacheEntry Nat :=
  ("k" ++ toString i, ⟨i, 0, 1000000, "k" ++ toString i⟩)

def bigStore : Cache Nat := (List.range 1000).map bigPair

def wCur : CacheEntry Nat := ⟨7, 0, 100, "current_gold_price"⟩

def wCurStore : Cache Nat := [("current_gold_price", wCur)]

def wHist : CacheEntry (List Nat) := ⟨[1, 2], 0, 100, "historical_1M"⟩

def wHistStore : Cache (List Nat) := [("historical_1M", wHist)]

def wDate : CacheEntry Nat := ⟨3, 0, 100, "date_2024-01-02"⟩

def wDateStore : Cache Nat := [("date_2024-01-02", wDate)]

/- Helper lemmas about the embedded Map operations. -/

theorem mapGet_mapSet_self (m : List (String × β)) (k : String) (v : β) :
    mapGet (mapSet m k v) k = some v := by
  induction m with
  | nil => simp [mapSet, mapGet]
  | cons p t ih =>
    by_cases h : p.1 = k
    · simp [mapSet, h, mapGet]
    · simp [mapSet, h, mapGet, ih]

theorem mapGet_mapSet_ne (m : List (String × β)) (k k2 : String) (v : β)
    (h : k2 ≠ k) : mapGet (mapSet m k v) k2 = mapGet m k2 := by
  induction m with
  | nil => simp [mapSet, mapGet, Ne.symm h]
  | cons p t ih =>
    by_cases hp : p.1 = k
    · simp [mapSet, hp, mapGet, Ne.symm h]
    · simp [mapSet, hp, mapGet, ih]

theorem length_mapSet_le (m : List (String × β)) (k : String) (v : β) :
    (mapSet m k v).length ≤ m.length + 1 := by
  induction m with
  | nil => simp [mapSet]
  | cons p t ih =>
    by_cases hp : p.1 = k
    · simp [mapSet, hp]
    · simp only [mapSet, if_neg hp, List.length_cons]
      omega

theorem mapSet_of_fresh (m : List (String × β)) (k : String) (v : β)
    (h : mapGet m k = none) : mapSet m k v = m ++ [(k, v)] := by
  induction m with
  | nil => simp [mapSet]
  | cons p t ih =>
    by_cases hp : p.1 = k
    · simp [mapGet, hp] at h
    · simp only [mapGet, if_neg hp] at h
      simp [mapSet, hp, ih h]

theorem mapDelete_sublist (m : List (String × β)) (k : String) :
    List.Sublist (mapDelete m k) m := by
  induction m with
  | nil => simp [mapDelete]
  | cons p t ih =>
    by_cases hp : p.1 = k
    · simp only [mapDelete, if_pos hp]
      exact List.sublist_cons_self p t
    · simp only [mapDelete, if_neg hp]
      exact ih.cons₂ p

theorem length_mapDelete_of_get (m : List (String × β)) (k : String) (e : β)
    (h : mapGet m k = some e) : (mapDelete m k).length + 1 = m.length := by
  induction m with
  | nil => simp [mapGet] at h
  | cons p t ih =>
    by_cases hp : p.1 = k
    · simp [mapDelete, hp]
    · simp only [mapGet, if_neg hp] at h
      have h2 := ih h
      simp only [mapDelete, if_neg hp, List.length_cons]
      omega

theorem mem_mapSet (m : List (String × β)) (k : String) (v : β)
    (p : String × β) (h : p ∈ mapSet m k v) : p = (k, v) ∨ p ∈ m := by
  induction m with
  | nil => simp [mapSet] at h; simp [h]
  | cons q t ih =>
    by_cases hq : q.1 = k
    · simp only [mapSet, if_pos hq, List.mem_cons] at h
      rcases h with h | h
      · exact Or.inl h
      · exact Or.inr (List.mem_cons_of_mem q h)
    · simp only [mapSet, if_neg hq, List.mem_cons] at h
      rcases h with h | h
      · exact Or.inr (h ▸ List.mem_cons_self q t)
      · rcases ih h with h2 | h2
        · exact Or.inl h2
        · exact Or.inr (List.mem_cons_of_mem q h2)

theorem mapGet_eq_none_of_keys (m : List (String × β)) (k : String)
    (h : ∀ p ∈ m, p.1 ≠ k) : mapGet m k = none := by
  induction m with
  | nil => simp [mapGet]
  | cons p t ih =>
    have hp : p.1 ≠ k := h p (List.mem_cons_self p t)
    simp only [mapGet, if_neg hp]
    exact ih (fun q hq => h q (List.mem_cons_of_mem p hq))

theorem mapGet_eq_some_mem (m : List (String × β)) (k : String) (e : β)
    (h : mapGet m k = some e) : (k, e) ∈ m := by
  induction m with
  | nil => simp [mapGet] at h
  | cons p t ih =>
    by_cases hp : p.1 = k
    · simp only [mapGet, if_pos hp, Option.some.injEq] at h
      have : p = (k, e) := Prod.ext hp (by simpa using h)
      exact this ▸ List.mem_cons_self p t
    · simp only [mapGet, if_neg hp] at h
      exact List.mem_cons_of_mem p (ih h)

theorem key_inj_of_nodup (m : List (String × β))
    (hm : (m.map Prod.fst).Nodup) (p q : String × β)
    (hp : p ∈ m) (hq : q ∈ m) (hk : p.1 = q.1) : p = q := by
  induction m with
  | nil => simp at hp
  | cons a t ih =>
    simp only [List.map_cons, List.nodup_cons] at hm
    rcases List.mem_cons.mp hp with rfl | hp2
    · rcases List.mem_cons.mp hq with rfl | hq2
      · rfl
      · exact absurd (hk ▸ List.mem_map_of_mem Prod.fst hq2) hm.1
    · rcases List.mem_cons.mp hq with rfl | hq2
      · exact absurd (hk ▸ List.mem_map_of_mem Prod.fst hp2) hm.1
      · exact ih hm.2 hp2 hq2

theorem mem_mapDelete_iff (m : List (String × β)) (k : String)
    (hm : (m.map Prod.fst).Nodup) (p : String × β) :
    p ∈ mapDelete m k ↔ p ∈ m ∧ p.1 ≠ k := by
  induction m with
  | nil => simp [mapDelete]
  | cons a t ih =>
    simp only [List.map_cons, List.nodup_cons] at hm
    by_cases ha : a.1 = k
    · simp only [mapDelete, if_pos ha, List.mem_cons]
      constructor
      · intro hp
        refine ⟨Or.inr hp, ?_⟩
        intro hpk
        exact hm.1 ((ha.trans hpk.symm) ▸ List.mem_map_of_mem Prod.fst hp)
      · rintro ⟨hp | hp, hpk⟩
        · exact absurd (hp ▸ ha) hpk
        · exact hp
    · simp only [mapDelete, if_neg ha, List.mem_cons, ih hm.2]
      constructor
      · rintro (rfl | ⟨hp, hpk⟩)
        · exact ⟨Or.inl rfl, ha⟩
        · exact ⟨Or.inr hp, hpk⟩
      · rintro ⟨rfl | hp, hpk⟩
        · exact Or.inl rfl
        · exact Or.inr ⟨hp, hpk⟩

theorem nodup_keys_mapDelete (m : List (String × β)) (k : String)
    (hm : (m.map Prod.fst).Nodup) : ((mapDelete m k).map Prod.fst).Nodup :=
  hm.sublist ((mapDelete_sublist m k).map Prod.fst)

theorem foldl_mapDelete_mem (ks : List String) :
    ∀ (m : List (String × β)), (m.map Prod.fst).Nodup →
      ∀ p, p ∈ ks.foldl mapDelete m ↔ p ∈ m ∧ p.1 ∉ ks := by
  induction ks with
  | nil => intro m _ p; simp
  | cons k ks ih =>
    intro m hm p
    rw [List.foldl_cons, ih (mapDelete m k) (nodup_keys_mapDelete m k hm),
      mem_mapDelete_iff m k hm p]
    simp only [List.mem_cons]
    tauto

/- Branch characterizations of the MemoryCache methods. -/

theorem get_absent (c : Cache α) (k : String) (now : Int)
    (h : mapGet c k = none) : MemoryCache.get c k now = (none, c) := by
  simp [MemoryCache.get, h]

theorem get_hit (c : Cache α) (k : String) (now : Int) (e : CacheEntry α)
    (h : mapGet c k = some e) (hLe : now - e.timestamp ≤ e.ttl) :
    MemoryCache.get c k now = (some e.data, c) := by
  simp [MemoryCache.get, h, not_lt.mpr hLe]

theorem get_expired (c : Cache α) (k : String) (now : Int) (e : CacheEntry α)
    (h : mapGet c k = some e) (hGt : now - e.timestamp > e.ttl) :
    MemoryCache.get c k now = (none, mapDelete c k) := by
  simp [MemoryCache.get, h, hGt]

theorem has_absent (c : Cache α) (k : String) (now : Int)
    (h : mapGet c k = none) : MemoryCache.has c k now = (false, c) := by
  simp [MemoryCache.has, h]

theorem has_hit (c : Cache α) (k : String) (now : Int) (e : CacheEntry α)
    (h : mapGet c k = some e) (hLe : now - e.timestamp ≤ e.ttl) :
    MemoryCache.has c k now = (true, c) := by
  simp [MemoryCache.has, h, not_lt.mpr hLe]

theorem has_expired (c : Cache α) (k : String) (now : Int) (e : CacheEntry α)
    (h : mapGet c k = some e) (hGt : now - e.timestamp > e.ttl) :
    MemoryCache.has c k now = (false, mapDelete c k) := by
  simp [MemoryCache.has, h, hGt]

theorem set_below_capacity (c : Cache α) (k : String) (d : α) (ttl now : Int)
    (h : c.length < CACHE_CONFIG.MAX_CACHE_SIZE) :
    MemoryCache.set c k d ttl now = mapSet c k ⟨d, now, ttl, k⟩ := by
  simp [MemoryCache.set, not_le.mpr h]

theorem set_at_capacity (c : Cache α) (k : String) (d : α) (ttl now : Int)
    (p : String × CacheEntry α)
    (hlen : CACHE_CONFIG.MAX_CACHE_SIZE ≤ c.length)
    (hhead : c.head? = some p) (hne : p.1 ≠ "") :
    MemoryCache.set c k d ttl now =
      mapSet (mapDelete c p.1) k ⟨d, now, ttl, k⟩ := by
  simp [MemoryCache.set, hlen, oldestKey, hhead, hne]

theorem set_head_empty_string (c : Cache α) (k : String) (d : α)
    (ttl now : Int) (hhead : oldestKey c = some "")
    (hfresh : mapGet c k = none) :
    MemoryCache.set c k d ttl now = c ++ [(k, ⟨d, now, ttl, k⟩)] := by
  by_cases hlen : CACHE_CONFIG.MAX_CACHE_SIZE ≤ c.length
  · rw [show MemoryCache.set c k d ttl now = mapSet c k ⟨d, now, ttl, k⟩ by
      simp [MemoryCache.set, hlen, hhead]]
    exact mapSet_of_fresh c k _ hfresh
  · rw [set_below_capacity c k d ttl now (not_le.mp hlen)]
    exact mapSet_of_fresh c k _ hfresh

theorem get_snd_cases (c : Cache α) (k : String) (n : Int) :
    (MemoryCache.get c k n).2 = c ∨ (MemoryCache.get c k n).2 = mapDelete c k := by
  unfold MemoryCache.get
  cases mapGet c k with
  | none => exact Or.inl rfl
  | some e =>
    by_cases hexp : n - e.timestamp > e.ttl
    · right; simp [hexp]
    · left; simp [hexp]

theorem has_snd_cases (c : Cache α) (k : String) (n : Int) :
    (MemoryCache.has c k n).2 = c ∨ (MemoryCache.has c k n).2 = mapDelete c k := by
  unfold MemoryCache.has
  cases mapGet c k with
  | none => exact Or.inl rfl
  | some e =>
    by_cases hexp : n - e.timestamp > e.ttl
    · right; simp [hexp]
    · left; simp [hexp]

theorem applyOp_inv (c : Cache α) (op : CacheOp α)
    (h1 : ∀ p ∈ c, p.1 ≠ "") (h2 : c.length ≤ CACHE_CONFIG.MAX_CACHE_SIZE)
    (hop : opKeyOk op = true) :
    (∀ p ∈ applyOp c op, p.1 ≠ "") ∧
      (applyOp c op).length ≤ CACHE_CONFIG.MAX_CACHE_SIZE := by
  have hdel : ∀ k : String,
      (∀ p ∈ mapDelete c k, p.1 ≠ "") ∧
        (mapDelete c k).length ≤ CACHE_CONFIG.MAX_CACHE_SIZE := by
    intro k
    have hs := mapDelete_sublist c k
    exact ⟨fun p hp => h1 p (hs.subset hp), le_trans hs.length_le h2⟩
  cases op with
  | clear => simp [applyOp, MemoryCache.clear]
  | delete k =>
    rw [show applyOp c (CacheOp.delete k) = mapDelete c k from rfl]
    exact hdel k
  | get k n =>
    rcases get_snd_cases c k n with h | h
    · rw [show applyOp c (CacheOp.get k n) = (MemoryCache.get c k n).2 from rfl, h]
      exact ⟨h1, h2⟩
    · rw [show applyOp c (CacheOp.get k n) = (MemoryCache.get c k n).2 from rfl, h]
      exact hdel k
  | has k n =>
    rcases has_snd_cases c k n with h | h
    · rw [show applyOp c (CacheOp.has k n) = (MemoryCache.has c k n).2 from rfl, h]
      exact ⟨h1, h2⟩
    · rw [show applyOp c (CacheOp.has k n) = (MemoryCache.has c k n).2 from rfl, h]
      exact hdel k
  | set k v t n =>
    have hk : k ≠ "" := by simpa [opKeyOk] using hop
    rw [show applyOp c (CacheOp.set k v t n) = MemoryCache.set c k v t n from rfl]
    by_cases hlen : CACHE_CONFIG.MAX_CACHE_SIZE ≤ c.length
    · have hpos : 0 < c.length :=
        lt_of_lt_of_le (by norm_num [CACHE_CONFIG.MAX_CACHE_SIZE]) hlen
      rcases c with _ | ⟨p0, t0⟩
      · simp at hpos
      · have hne0 : p0.1 ≠ "" := h1 p0 (List.mem_cons_self p0 t0)
        rw [set_at_capacity _ k v t n p0 hlen rfl hne0,
          show mapDelete (p0 :: t0) p0.1 = t0 by simp [mapDelete]]
        constructor
        · intro p hp
          rcases mem_mapSet t0 k _ p hp with rfl | hp2
          · exact hk
          · exact h1 p (List.mem_cons_of_mem p0 hp2)
        · have hms := length_mapSet_le t0 k (⟨v, n, t, k⟩ : CacheEntry α)
          have hlc : (p0 :: t0).length ≤ CACHE_CONFIG.MAX_CACHE_SIZE := h2
          simp only [List.length_cons] at hlc
          omega
    · rw [set_below_capacity c k v t n (not_le.mp hlen)]
      constructor
      · intro p hp
        rcases mem_mapSet c k _ p hp with rfl | hp2
        · exact hk
        · exact h1 p hp2
      · have hms := length_mapSet_le c k (⟨v, n, t, k⟩ : CacheEntry α)
        have hlt := not_le.mp hlen
        omega

theorem foldl_applyOp_inv (ops : List (CacheOp α)) :
    ∀ c : Cache α, (∀ p ∈ c, p.1 ≠ "") →
      c.length ≤ CACHE_CONFIG.MAX_CACHE_SIZE →
      (∀ op ∈ ops, opKeyOk op = true) →
      (∀ p ∈ ops.foldl applyOp c, p.1 ≠ "") ∧
        (ops.foldl applyOp c).length ≤ CACHE_CONFIG.MAX_CACHE_SIZE := by
  induction ops with
  | nil => intro c h1 h2 _; exact ⟨h1, h2⟩
  | cons op ops ih =>
    intro c h1 h2 hops
    rw [List.foldl_cons]
    have hstep := applyOp_inv c op h1 h2 (hops op (List.mem_cons_self op ops))
    exact ih _ hstep.1 hstep.2 (fun o ho => hops o (List.mem_cons_of_mem op ho))

theorem ceKey_inj {i j : Nat} (h : ceKey i = ceKey j) : i = j := by
  have hd := congrArg (fun s => s.data.length) h
  simpa [ceKey] using hd

theorem mapGet_ceStore_none (n : Nat) :
    mapGet ((List.range n).map cePair) (ceKey n) = none := by
  apply mapGet_eq_none_of_keys
  intro p hp
  simp only [List.mem_map, List.mem_range] at hp
  obtain ⟨i, hi, rfl⟩ := hp
  intro h
  exact absurd (ceKey_inj h) (Nat.ne_of_lt hi)

theorem buildCache_eq (n : Nat) : buildCache n = (List.range n).map cePair := by
  induction n with
  | zero => rfl
  | succ m ih =>
    have h1 : buildCache (m + 1) =
        MemoryCache.set (buildCache m) (ceKey m) m 1000000 0 := by
      rw [buildCache, buildCache, List.range_succ, List.foldl_append]
      rfl
    rw [h1, ih]
    cases m with
    | zero => rfl
    | succ l =>
      have hhead : oldestKey ((List.range (l + 1)).map cePair) = some "" := by
        rw [List.range_succ_eq_map]
        simp [oldestKey, cePair, ceKey]
      rw [set_head_empty_string _ _ _ _ _ hhead (mapGet_ceStore_none (l + 1))]
      simp [List.range_succ, cePair]

/-- Claim C1: for every key whose stored entry satisfies now - createdAt >
ttl at call time, MemoryCache.get returns null and deletes the entry; for a
present entry with now - createdAt <= ttl, get returns the stored value and
leaves the store unchanged. -/
theorem C1_get_lazy_expiry (α : Type) (c : Cache α) (k : String) (now : Int)
    (e : CacheEntry α) (h : mapGet c k = some e) :
    (now - e.timestamp > e.ttl →
      MemoryCache.get c k now = (none, mapDelete c k)) ∧
    (now - e.timestamp ≤ e.ttl →
      MemoryCache.get c k now = (some e.data, c)) :=
  ⟨fun hGt => get_expired c k now e h hGt, fun hLe => get_hit c k now e h hLe⟩

/-- Witness for C1 at a concrete store: an entry with ttl 5 read at time 10
is expired, so get deletes it and returns null. -/
theorem C1_get_lazy_expiry_witness :
    mapGet wStore "k" = some wEntry ∧
    (10 : Int) - wEntry.timestamp > wEntry.ttl ∧
    MemoryCache.get wStore "k" 10 = (none, mapDelete wStore "k") :=
  ⟨rfl, by decide,
    (C1_get_lazy_expiry Nat wStore "k" 10 wEntry rfl).1 (by decide)⟩

/-- Claim C7: one cleanup run removes exactly the entries that were expired
at sweep start: an entry survives the sweep iff it was in the store and
unexpired. Stores reachable through the Map API have pairwise distinct keys,
which is the Nodup hypothesis. -/
theorem C7_cleanup_correct (α : Type) (c : Cache α) (now : Int)
    (hnd : (c.map Prod.fst).Nodup) (p : String × CacheEntry α) :
    p ∈ MemoryCache.cleanup c now ↔
      p ∈ c ∧ now - p.2.timestamp ≤ p.2.ttl := by
  unfold MemoryCache.cleanup
  rw [foldl_mapDelete_mem _ c hnd p]
  constructor
  · rintro ⟨hp, hnk⟩
    refine ⟨hp, ?_⟩
    by_contra hGt
    push_neg at hGt
    apply hnk
    simp only [List.mem_map, List.mem_filter]
    exact ⟨p, ⟨hp, by simpa using hGt⟩, rfl⟩
  · rintro ⟨hp, hLe⟩
    refine ⟨hp, ?_⟩
    intro hk
    simp only [List.mem_map, List.mem_filter, decide_eq_true_eq] at hk
    obtain ⟨q, ⟨hq, hqe⟩, hqk⟩ := hk
    have hqp := key_inj_of_nodup c hnd q p hq hp hqk
    subst hqp
    omega

/-- Witness for C7 at a concrete two-entry store swept at time 10: the
expired entry is removed and the unexpired one survives. -/
theorem C7_cleanup_correct_witness :
    MemoryCache.cleanup wSweepStore 10 = [("new", wLive)] ∧
    (("new", wLive) ∈ MemoryCache.cleanup wSweepStore 10 ↔
      ("new", wLive) ∈ wSweepStore ∧ (10 : Int) - wLive.timestamp ≤ wLive.ttl) :=
  ⟨by decide, C7_cleanup_correct Nat wSweepStore 10 (by decide) ("new", wLive)⟩

/-- Claim C9: getStats never mutates the store, and the snapshot reports the
current size, the configured maxSize, and per entry its key, age, ttl and
expired status. -/
theorem C9_getStats_pure (α : Type) (c : Cache α) (now : Int) :
    (MemoryCache.getStats c now).2 = c ∧
    (MemoryCache.getStats c now).1.size = c.length ∧
    (MemoryCache.getStats c now).1.maxSize = CACHE_CONFIG.MAX_CACHE_SIZE ∧
    (MemoryCache.getStats c now).1.entries =
      c.map (fun p =>
        ⟨p.1, now - p.2.timestamp, p.2.ttl,
          decide (now - p.2.timestamp > p.2.ttl)⟩) :=
  ⟨rfl, rfl, rfl, rfl⟩

/-- Claim C10: has is not read-only; on an entry expired at call time it
deletes the entry (size drops by one and getStats no longer lists the key)
and returns false, while for an absent key or an unexpired entry the store
is unchanged. -/
theorem C10_has_lazy_delete (α : Type) (c : Cache α) (k : String)
    (now now2 : Int) (hnd : (c.map Prod.fst).Nodup) :
    (mapGet c k = none → MemoryCache.has c k now = (false, c)) ∧
    (∀ e, mapGet c k = some e →
      (now - e.timestamp ≤ e.ttl → MemoryCache.has c k now = (true, c)) ∧
      (now - e.timestamp > e.ttl →
        MemoryCache.has c k now = (false, mapDelete c k) ∧
        (mapDelete c k).length + 1 = c.length ∧
        ∀ s ∈ (MemoryCache.getStats (mapDelete c k) now2).1.entries,
          s.key ≠ k)) := by
  refine ⟨fun h => has_absent c k now h, fun e he => ⟨fun hLe => has_hit c k now e he hLe, fun hGt => ⟨has_expired c k now e he hGt, length_mapDelete_of_get c k e he, ?_⟩⟩⟩
  intro s hs
  simp only [MemoryCache.getStats, List.mem_map] at hs
  obtain ⟨p, hp, hps⟩ := hs
  rw [← hps]
  exact ((mem_mapDelete_iff c k hnd p).mp hp).2

/-- Witness for C10: the expired entry of the concrete store is deleted by
has, which returns false; the size drops from 1 to 0. -/
theorem C10_has_lazy_delete_witness :
    MemoryCache.has wStore "k" 10 = (false, mapDelete wStore "k") ∧
    (mapDelete wStore "k").length + 1 = wStore.length :=
  let h := ((C10_has_lazy_delete Nat wStore "k" 10 0 (by decide)).2 wEntry
    rfl).2 (by decide)
  ⟨h.1, h.2.1⟩

theorem key_append_ne_empty (s : String) : ("k" ++ s) ≠ "" := by
  intro h
  have hd : ("k" ++ s).data = "".data := congrArg String.data h
  rw [String.data_append] at hd
  simp at hd

theorem bigStore_keys_ne_empty : ∀ p ∈ bigStore, p.1 ≠ "" := by
  intro p hp
  simp only [bigStore, List.mem_map] at hp
  obtain ⟨i, _, rfl⟩ := hp
  exact key_append_ne_empty (toString i)

/-- Claim C2 (amended): for every sequence of set, get, has, delete and
clear operations from the empty store in which no set uses the empty-string
key (all keys the server derives are non-empty), the store size never
exceeds MAX_CACHE_SIZE. The restriction is forced by the JavaScript
truthiness guard if (oldestKey), which skips eviction when the oldest key
is the empty string. -/
theorem C2_bounded_size_amended (α : Type) (ops : List (CacheOp α))
    (hok : ∀ op ∈ ops, opKeyOk op = true) :
    (runOps ops).length ≤ CACHE_CONFIG.MAX_CACHE_SIZE :=
  (foldl_applyOp_inv ops [] (by simp) (Nat.zero_le _) hok).2

/-- Witness for C2 (amended) on a concrete two-operation sequence. -/
theorem C2_bounded_size_witness :
    (∀ op ∈ ([CacheOp.set "a" (1 : Nat) 5 0, CacheOp.get "a" 3] :
        List (CacheOp Nat)), opKeyOk op = true) ∧
    (runOps [CacheOp.set "a" (1 : Nat) 5 0, CacheOp.get "a" 3]).length ≤
      CACHE_CONFIG.MAX_CACHE_SIZE :=
  ⟨by decide, C2_bounded_size_amended Nat _ (by decide)⟩

/-- Claim C2 counterexample: the claim as stated quantifies over all
operation sequences. The sequence overflowOps (1001 set calls on pairwise
distinct keys whose first key is the empty string) drives the store to 1001
entries, exceeding MAX_CACHE_SIZE = 1000: once the store is full the
eviction guard reads the oldest key, the empty string, which is falsy in
JavaScript, so nothing is ever evicted. -/
theorem C2_bounded_size_counterexample :
    CACHE_CONFIG.MAX_CACHE_SIZE < (runOps overflowOps).length := by
  have h1 : runOps overflowOps = buildCache 1001 := by
    unfold runOps overflowOps
    rw [List.foldl_map]
    rfl
  rw [h1, buildCache_eq]
  simp [CACHE_CONFIG.MAX_CACHE_SIZE]

/-- Claim C3 (amended): set evicts exactly one entry, the oldest-inserted
one (the first key of the store), whenever the store holds at least
MAX_CACHE_SIZE entries at call time - even when the key being set is
already present; below capacity it inserts or overwrites in place with no
eviction. Stated for stores whose keys are non-empty (as all
server-derived keys are), since an empty-string oldest key would be skipped
by the truthiness guard. -/
theorem C3_eviction_amended (α : Type) (c : Cache α) (k : String) (d : α)
    (ttl now : Int) (hne : ∀ p ∈ c, p.1 ≠ "") :
    (c.length < CACHE_CONFIG.MAX_CACHE_SIZE →
      MemoryCache.set c k d ttl now = mapSet c k ⟨d, now, ttl, k⟩) ∧
    (∀ p0, c.head? = some p0 → CACHE_CONFIG.MAX_CACHE_SIZE ≤ c.length →
      MemoryCache.set c k d ttl now =
        mapSet (mapDelete c p0.1) k ⟨d, now, ttl, k⟩) := by
  constructor
  · exact set_below_capacity c k d ttl now
  · intro p0 hh hlen
    have hp0 : p0 ∈ c := by
      rcases c with _ | ⟨q, t⟩
      · simp at hh
      · simp only [List.head?_cons, Option.some.injEq] at hh
        exact hh ▸ List.mem_cons_self q t
    exact set_at_capacity c k d ttl now p0 hlen hh (hne p0 hp0)

/-- Witness for C3 (amended) at the concrete full store bigStore: setting
the already-present key "k5" evicts the oldest entry "k0" and overwrites
"k5" in place. -/
theorem C3_eviction_witness :
    (∀ p ∈ bigStore, p.1 ≠ "") ∧
    MemoryCache.set bigStore "k5" 77 1000000 0 =
      mapSet (mapDelete bigStore (bigPair 0).1) "k5" ⟨77, 0, 1000000, "k5"⟩ := by
  refine ⟨bigStore_keys_ne_empty, ?_⟩
  exact (C3_eviction_amended Nat bigStore "k5" 77 1000000 0
    bigStore_keys_ne_empty).2 (bigPair 0) (by decide) (by decide)

/-- Claim C3 counterexample: the claim states that set evicts only when the
key is new and that an overwrite removes no other entry; but at capacity
the source evicts unconditionally. In bigStore the key "k5" is present and
the store is at capacity; set of "k5" nevertheless removes the entry
"k0". -/
theorem C3_eviction_counterexample :
    (mapGet bigStore "k5").isSome = true ∧
    (mapGet bigStore "k0").isSome = true ∧
    mapGet (MemoryCache.set bigStore "k5" 77 1000000 0) "k0" = none := by
  decide

/-- Claim C4: on a cache miss, fetchCurrentGoldPrice issues both upstream
quote requests and selects the GCUSD (spot gold) first record when that
request fulfilled non-empty, else the GLD first record when that request
fulfilled non-empty, else throws the no-data error; a fulfilled-but-empty
response is never used. -/
theorem C4_current_selection (α ε : Type) (c : Cache α) (now : Int)
    (gld gold : Except ε (List α))
    (hmiss : (MemoryCache.get c "current_gold_price" now).1 = none) :
    (fetchCurrentGoldPrice c now gld gold).2.2 =
      [Request.quote "GLD", Request.quote "GCUSD"] ∧
    (∀ q qs, gold = Except.ok (q :: qs) →
      (fetchCurrentGoldPrice c now gld gold).1 = Except.ok q) ∧
    (quoteFirst gold = none → ∀ q qs, gld = Except.ok (q :: qs) →
      (fetchCurrentGoldPrice c now gld gold).1 = Except.ok q) ∧
    (quoteFirst gold = none → quoteFirst gld = none →
      (fetchCurrentGoldPrice c now gld gold).1 =
        Except.error (FetchError.noData "No gold data available from API")) := by
  rcases hg : MemoryCache.get c "current_gold_price" now with ⟨r, c2⟩
  have hr : r = none := hmiss.symm ▸ (by rw [hg])
  subst hr
  refine ⟨?_, ?_, ?_, ?_⟩
  · rcases gold with eg | lg
    · rcases gld with ed | ld
      · simp [fetchCurrentGoldPrice, hg]
      · rcases ld with _ | ⟨q, qs⟩ <;> simp [fetchCurrentGoldPrice, hg]
    · rcases lg with _ | ⟨q, qs⟩
      · rcases gld with ed | ld
        · simp [fetchCurrentGoldPrice, hg]
        · rcases ld with _ | ⟨q2, qs2⟩ <;> simp [fetchCurrentGoldPrice, hg]
      · simp [fetchCurrentGoldPrice, hg]
  · rintro q qs rfl
    simp [fetchCurrentGoldPrice, hg]
  · intro hq q qs hd
    subst hd
    rcases gold with eg | lg
    · simp [fetchCurrentGoldPrice, hg]
    · rcases lg with _ | ⟨q2, qs2⟩
      · simp [fetchCurrentGoldPrice, hg]
      · simp [quoteFirst] at hq
  · intro hq hd
    rcases gold with eg | lg
    · rcases gld with ed | ld
      · simp [fetchCurrentGoldPrice, hg]
      · rcases ld with _ | ⟨q2, qs2⟩
        · simp [fetchCurrentGoldPrice, hg]
        · simp [quoteFirst] at hd
    · rcases lg with _ | ⟨q2, qs2⟩
      · rcases gld with ed | ld
        · simp [fetchCurrentGoldPrice, hg]
        · rcases ld with _ | ⟨q3, qs3⟩
          · simp [fetchCurrentGoldPrice, hg]
          · simp [quoteFirst] at hd
      · simp [quoteFirst] at hq

/-- Witness for C4: on the empty cache with GLD rejected and GCUSD fulfilled
with one quote, the fetch returns that quote. -/
theorem C4_current_selection_witness :
    (MemoryCache.get ([] : Cache Nat) "current_gold_price" 0).1 = none ∧
    (fetchCurrentGoldPrice ([] : Cache Nat) 0 (Except.error ())
      (Except.ok [42])).1 = Except.ok 42 :=
  ⟨rfl,
    (C4_current_selection Nat Unit [] 0 (Except.error ()) (Except.ok [42])
      rfl).2.1 42 [] rfl⟩

/-- Claim C5: on a cache miss, fetchHistoricalData queries GCUSD for the
computed range; GLD is queried, for the identical range, exactly when the
GCUSD call rejects (not when it fulfills empty or with an unrecognized
shape); an empty normalized result after the attempted calls is an error;
and the bare-array and wrapped-object response shapes normalize to the same
list. -/
theorem C5_historical_fallback (β ε : Type) (c : Cache (List β)) (now : Int)
    (timeframe start end_ : String)
    (primary secondary : Except ε (UpstreamBody β))
    (hmiss : (MemoryCache.get c ("historical_" ++ timeframe) now).1 = none) :
    (∀ body, primary = Except.ok body →
      (fetchHistoricalData c now timeframe start end_ primary secondary).2.2 =
        [Request.historicalPriceFull "GCUSD" start end_]) ∧
    (∀ er, primary = Except.error er →
      (fetchHistoricalData c now timeframe start end_ primary secondary).2.2 =
        [Request.historicalPriceFull "GCUSD" start end_,
         Request.historicalPriceFull "GLD" start end_]) ∧
    (∀ body, primary = Except.ok body → normalizeHistorical body = [] →
      (fetchHistoricalData c now timeframe start end_ primary secondary).1 =
        Except.error
          (FetchError.noData "No historical data available from API")) ∧
    (∀ er body, primary = Except.error er → secondary = Except.ok body →
      normalizeHistorical body = [] →
      (fetchHistoricalData c now timeframe start end_ primary secondary).1 =
        Except.error
          (FetchError.noData "No historical data available from API")) ∧
    (∀ er er2, primary = Except.error er → secondary = Except.error er2 →
      (fetchHistoricalData c now timeframe start end_ primary secondary).1 =
        Except.error (FetchError.upstream er2)) ∧
    (∀ xs : List β, normalizeHistorical (UpstreamBody.arr xs) =
      normalizeHistorical (UpstreamBody.wrapped xs)) := by
  rcases hg : MemoryCache.get c ("historical_" ++ timeframe) now with ⟨r, c2⟩
  have hr : r = none := hmiss.symm ▸ (by rw [hg])
  subst hr
  refine ⟨?_, ?_, ?_, ?_, ?_, ?_⟩
  · rintro body rfl
    by_cases hE : (normalizeHistorical body).isEmpty <;>
      simp [fetchHistoricalData, hg, hE]
  · rintro er rfl
    rcases secondary with er2 | body2
    · simp [fetchHistoricalData, hg]
    · by_cases hE : (normalizeHistorical body2).isEmpty <;>
        simp [fetchHistoricalData, hg, hE]
  · rintro body rfl hnorm
    simp [fetchHistoricalData, hg, hnorm]
  · rintro er body rfl rfl hnorm
    simp [fetchHistoricalData, hg, hnorm]
  · rintro er er2 rfl rfl
    simp [fetchHistoricalData, hg]
  · intro xs
    rfl

/-- Witness for C5: on the empty cache with GCUSD fulfilled as a bare
one-element array, only the GCUSD request is issued. -/
theorem C5_historical_fallback_witness :
    (MemoryCache.get ([] : Cache (List Nat)) ("historical_" ++ "1M") 0).1 =
      none ∧
    (fetchHistoricalData ([] : Cache (List Nat)) 0 "1M" "2024-01-01"
      "2024-02-01" (Except.ok (UpstreamBody.arr [5])) (Except.error ())).2.2 =
      [Request.historicalPriceFull "GCUSD" "2024-01-01" "2024-02-01"] :=
  ⟨rfl,
    (C5_historical_fallback Nat Unit [] 0 "1M" "2024-01-01" "2024-02-01"
      (Except.ok (UpstreamBody.arr [5])) (Except.error ()) rfl).1
      (UpstreamBody.arr [5]) rfl⟩

/-- Claim C6: each of the three fetch operations, when the cache holds an
unexpired entry under its logical key, returns that cached value, leaves
the store unchanged, and issues no upstream request; consequently a second
current-quote fetch within the TTL window after a successful miss issues no
upstream requests. -/
theorem C6_cache_hit_no_upstream (α β ε : Type) :
    (∀ (c : Cache α) (now : Int) (gld gold : Except ε (List α))
        (e : CacheEntry α),
      mapGet c "current_gold_price" = some e → now - e.timestamp ≤ e.ttl →
      fetchCurrentGoldPrice c now gld gold = (Except.ok e.data, c, [])) ∧
    (∀ (c : Cache (List β)) (now : Int) (timeframe start end_ : String)
        (primary secondary : Except ε (UpstreamBody β))
        (e : CacheEntry (List β)),
      mapGet c ("historical_" ++ timeframe) = some e →
      now - e.timestamp ≤ e.ttl →
      fetchHistoricalData c now timeframe start end_ primary secondary =
        (Except.ok e.data, c, [])) ∧
    (∀ (c : Cache α) (now : Int) (date : String)
        (resp : Except ε (UpstreamBody α)) (e : CacheEntry α),
      mapGet c ("date_" ++ date) = some e → now - e.timestamp ≤ e.ttl →
      fetchDateSpecificData c now date resp = (Except.ok e.data, c, [])) ∧
    (∀ (c : Cache α) (now now2 : Int)
        (gld gold gld2 gold2 : Except ε (List α)) (q : α) (qs : List α),
      (MemoryCache.get c "current_gold_price" now).1 = none →
      gold = Except.ok (q :: qs) →
      now2 - now ≤ CACHE_CONFIG.CURRENT_PRICE_TTL →
      fetchCurrentGoldPrice ((fetchCurrentGoldPrice c now gld gold).2.1)
          now2 gld2 gold2 =
        (Except.ok q, (fetchCurrentGoldPrice c now gld gold).2.1, [])) := by
  refine ⟨?_, ?_, ?_, ?_⟩
  · intro c now gld gold e hm hLe
    simp [fetchCurrentGoldPrice, get_hit c _ now e hm hLe]
  · intro c now timeframe start end_ primary secondary e hm hLe
    simp [fetchHistoricalData, get_hit c _ now e hm hLe]
  · intro c now date resp e hm hLe
    simp [fetchDateSpecificData, get_hit c _ now e hm hLe]
  · intro c now now2 gld gold gld2 gold2 q qs hmiss hgold hLe
    subst hgold
    rcases hg : MemoryCache.get c "current_gold_price" now with ⟨r, c2⟩
    have hr : r = none := hmiss.symm ▸ (by rw [hg])
    subst hr
    have h1 : fetchCurrentGoldPrice c now gld (Except.ok (q :: qs)) =
        (Except.ok q,
          MemoryCache.set c2 "current_gold_price" q
            CACHE_CONFIG.CURRENT_PRICE_TTL now,
          [Request.quote "GLD", Request.quote "GCUSD"]) := by
      simp [fetchCurrentGoldPrice, hg]
    rw [h1]
    have hself : mapGet
        (MemoryCache.set c2 "current_gold_price" q
          CACHE_CONFIG.CURRENT_PRICE_TTL now) "current_gold_price" =
        some ⟨q, now, CACHE_CONFIG.CURRENT_PRICE_TTL, "current_gold_price"⟩ := by
      unfold MemoryCache.set
      exact mapGet_mapSet_self _ _ _
    have hfresh := get_hit _ "current_gold_price" now2 _ hself (by simpa using hLe)
    simp [fetchCurrentGoldPrice, hfresh]

/-- Witness for C6 at concrete stores: each operation returns its cached
value with no requests, and a re-fetch 60 ms after a fresh fetch at time 0
is a hit with no requests. -/
theorem C6_cache_hit_no_upstream_witness :
    fetchCurrentGoldPrice wCurStore 50 (Except.error ()) (Except.error ()) =
      (Except.ok 7, wCurStore, []) ∧
    fetchHistoricalData wHistStore 50 "1M" "2024-01-01" "2024-02-01"
        (Except.error ()) (Except.error ()) =
      (Except.ok [1, 2], wHistStore, []) ∧
    fetchDateSpecificData wDateStore 50 "2024-01-02" (Except.error ()) =
      (Except.ok 3, wDateStore, []) ∧
    fetchCurrentGoldPrice
        ((fetchCurrentGoldPrice ([] : Cache Nat) 0 (Except.error ())
          (Except.ok [9])).2.1) 60 (Except.error ()) (Except.error ()) =
      (Except.ok 9,
        (fetchCurrentGoldPrice ([] : Cache Nat) 0 (Except.error ())
          (Except.ok [9])).2.1, []) :=
  ⟨(C6_cache_hit_no_upstream Nat Nat Unit).1 wCurStore 50 (Except.error ())
      (Except.error ()) wCur rfl (by decide),
    (C6_cache_hit_no_upstream Nat Nat Unit).2.1 wHistStore 50 "1M"
      "2024-01-01" "2024-02-01" (Except.error ()) (Except.error ()) wHist
      rfl (by decide),
    (C6_cache_hit_no_upstream Nat Nat Unit).2.2.1 wDateStore 50 "2024-01-02"
      (Except.error ()) wDate rfl (by decide),
    (C6_cache_hit_no_upstream Nat Nat Unit).2.2.2 [] 0 60 (Except.error ())
      (Except.ok [9]) (Except.error ()) (Except.error ()) 9 [] rfl rfl
      (by decide)⟩

/-- Claim C8 concerns the cached flag of the data endpoints. The source
computes cached: cache.has("current_gold_price") only after
fetchCurrentGoldPrice has already stored the freshly fetched quote, so on a
cache miss followed by a successful upstream fetch the response carries
cached = true, although the data was not served from the cache. This
theorem evaluates the handler at that failing input: the empty cache with a
fulfilled GCUSD quote; the fetch issues both upstream requests (a miss),
yet the response flag is true. -/
theorem C8_cached_flag_bug :
    (MemoryCache.get ([] : Cache Nat) "current_gold_price" 0).1 = none ∧
    (fetchCurrentGoldPrice ([] : Cache Nat) 0 (Except.error ())
        (Except.ok [42])).2.2 =
      [Request.quote "GLD", Request.quote "GCUSD"] ∧
    (handleCurrent ([] : Cache Nat) 0 (Except.error ())
        (Except.ok [42])).1 = Except.ok (42, true) :=
  ⟨rfl, rfl, rfl⟩
